import Mathlib

/-!
Shallow embedding of `src/xmlrunner/__init__.py` (the XMLTestRunner result
collector and XML report generator).

Python strings are sequences of Unicode code points, which may include lone
surrogates; where a claim depends on that (the XML sanitizer) the text is
modelled as `List Nat` of code points.  Elsewhere text is modelled as Lean
`String` and the same code-point predicate is applied character-wise.
Wall-clock instants (`time.time()`) are modelled as integers supplied by the
external execution engine through the lifecycle events.
-/

namespace XmlRunner

/-- The set matched by `INVALID_XML_1_0_UNICODE_RE`:
`[\x00-\x08\x0B\x0C\x0E-\x1F\uD800-\uDFFF￾￿]`, over code points. -/
def isInvalidXmlChar (c : Nat) : Bool :=
  (c ≤ 0x08) || (c == 0x0B) || (c == 0x0C) || (0x0E ≤ c && c ≤ 0x1F) ||
  (0xD800 ≤ c && c ≤ 0xDFFF) || (c == 0xFFFE) || (c == 0xFFFF)

/-- `INVALID_XML_1_0_UNICODE_RE.sub('', base)` on an already-unicode string:
every matched (invalid) code point is deleted, everything else kept. -/
def sub_invalid (s : List Nat) : List Nat :=
  s.filter (fun c => !isInvalidXmlChar c)

/-- The argument of `xml_safe_unicode`: either a unicode string or a byte
string (Python 3 `bytes`), modelled as its list of byte values. -/
inductive TextBase where
  | ustr (s : List Nat)
  | bytes (b : List Nat)
deriving DecidableEq, Repr

/-- `xml_safe_unicode(base, encoding)`: a byte string is first decoded with
the configured encoding (the decoder of that encoding is passed in as
`decode`; it fails with `none` exactly when Python's `bytes.decode` raises),
then the invalid-XML code points are substituted away.  The Python function
raises only when the decode raises, which the `Option` models. -/
def xml_safe_unicode (decode : List Nat → Option (List Nat)) :
    TextBase → Option (List Nat)
  | .ustr s => some (sub_invalid s)
  | .bytes b => (decode b).map sub_invalid

/-- Character-wise version of the invalid-XML test for Lean `String`s. -/
def xml_safe_str (s : String) : String :=
  ⟨s.data.filter (fun c => !isInvalidXmlChar c.toNat)⟩

/-- `str.split('.')` over the character list: split at every dot. -/
def splitOnDot : List Char → List (List Char)
  | [] => [[]]
  | x :: xs =>
    let r := splitOnDot xs
    if x == '.' then [] :: r
    else
      match r with
      | [] => [[x]]
      | h :: t => (x :: h) :: t

/-- `_XMLTestResult._test_method_name`: `test_id.split('.')[-1]`
(Python `split` always returns at least one part, so `[-1]` is total). -/
def test_method_name (test_id : String) : String :=
  ⟨(splitOnDot test_id.data).getLastD []⟩

/-- Possible test outcomes, `(SUCCESS, FAILURE, ERROR, SKIP) = range(4)`. -/
def SUCCESS : Nat := 0

/-- `_TestInfo.FAILURE = 1`. -/
def FAILURE : Nat := 1

/-- `_TestInfo.ERROR = 2`. -/
def ERROR : Nat := 2

/-- `_TestInfo.SKIP = 3`. -/
def SKIP : Nat := 3

/-- The `err` argument of `_TestInfo.__init__`: for a failure/error it is the
`(type, value, traceback)` triple — modelled by the exception type's
`__name__`, `str(value)` and the string `_exc_info_to_string` renders for it —
and for a skip it is the free-text reason. -/
inductive ErrData where
  | exc (typeName : String) (msgStr : String) (trace : String)
  | reason (r : String)
deriving DecidableEq, Repr

/-- The trace `_exc_info_to_string(err, test_method)` produces (external
unittest helper; its output string is carried inside `ErrData.exc`). -/
def exc_info_to_string : Option ErrData → String
  | some (.exc _ _ tr) => tr
  | _ => ""

/-- `_TestInfo`: the per-test record.  `test_name` is the suite name
(`testcase_name(test_method)`), `test_id` is `test_method.id()`. -/
structure TestInfo where
  outcome : Nat
  test_index : Nat
  elapsed_time : Int
  err : Option ErrData
  std_output : Option String
  err_output : Option String
  test_description : String
  test_exception_info : String
  test_name : String
  test_id : String
deriving DecidableEq, Repr

/-- `_TestInfo.__init__` (the fields the constructor computes; `test_index`
and `elapsed_time` start at 0 and are overwritten by `test_finished`). -/
def mkTestInfo (name id desc : String) (outcome : Nat) (err : Option ErrData)
    (std_output err_output : Option String) : TestInfo :=
  { outcome := outcome
    test_index := 0
    elapsed_time := 0
    err := err
    std_output := std_output
    err_output := err_output
    test_description := desc
    test_exception_info :=
      if outcome == SUCCESS || outcome == SKIP then ""
      else exc_info_to_string err
    test_name := name
    test_id := id }

/-- `_TestInfo.get_std_output`. -/
def TestInfo.get_std_output (t : TestInfo) : Option String := t.std_output

/-- `_TestInfo.get_err_output`. -/
def TestInfo.get_err_output (t : TestInfo) : Option String := t.err_output

/-- `_TestInfo.get_error_info`. -/
def TestInfo.get_error_info (t : TestInfo) : String := t.test_exception_info

/-- Python truthiness of `None` / a string: `None` and `''` are falsy. -/
def optStrTruthy : Option String → Bool
  | none => false
  | some s => !(s == "")

/-- The identity the external test object contributes to a record:
`testcase_name(test_method)` (the suite name), `test_method.id()` and
`getDescription(test_method)`. -/
structure TestRef where
  test_name : String
  test_id : String
  desc : String
deriving DecidableEq, Repr

/-- Which list holds the `_TestInfo` object captured by the pending
`stopTest` callback closure (it is always that list's last element:
`addSuccess` appends to `self.successes`, `addFailure`/`addError` append
the pair to `self.errors`, `addSkip` to `self.skipped`). -/
inductive Bucket where
  | successesB
  | errorsB
  | skippedB
deriving DecidableEq, Repr

/-- The mutable state of a `_XMLTestResult` (the fields the embedded claims
depend on).  `failures` is the base-class `TestResult.failures` list: the
overridden `addFailure` never appends to it (it appends to `errors`), so it
only ever holds what base-class code would put there — nothing, here. -/
structure XMLTestResult where
  elapsed_times : Bool
  per_test_output : Bool
  successes : List TestInfo
  failures : List (TestInfo × String)
  errors : List (TestInfo × String)
  skipped : List (TestInfo × String)
  callback : Option Bucket
  test_index : Nat
  start_time : Int
  stop_time : Int
deriving Repr

/-- `_XMLTestResult.__init__`. -/
def initResult (elapsed_times per_test_output : Bool) : XMLTestResult :=
  { elapsed_times := elapsed_times
    per_test_output := per_test_output
    successes := []
    failures := []
    errors := []
    skipped := []
    callback := none
    test_index := 0
    start_time := 0
    stop_time := 0 }

/-- Apply `f` to the last element of a list (mutating the object the pending
callback closure captured). -/
def updLast (f : α → α) : List α → List α
  | [] => []
  | [a] => [f a]
  | a :: b :: rest => a :: updLast f (b :: rest)

/-- `_TestInfo.test_finished`: stores the result's current `test_index` and
`stop_time - start_time` on the record. -/
def finishInfo (idx : Nat) (elapsed : Int) (ti : TestInfo) : TestInfo :=
  { ti with test_index := idx, elapsed_time := elapsed }

/-- Apply a record update to the object the callback captured (the last
element of its bucket). -/
def applyToBucket (b : Bucket) (f : TestInfo → TestInfo) (s : XMLTestResult) :
    XMLTestResult :=
  match b with
  | .successesB => { s with successes := updLast f s.successes }
  | .errorsB => { s with errors := updLast (fun p => (f p.1, p.2)) s.errors }
  | .skippedB => { s with skipped := updLast (fun p => (f p.1, p.2)) s.skipped }

/-- `_XMLTestResult.startTest`: records the start time (`time.time()` is the
supplied instant `t`). -/
def startTest (t : Int) (s : XMLTestResult) : XMLTestResult :=
  { s with start_time := t }

/-- `_XMLTestResult.stopTest`: records the stop time, runs the pending
callback if any, then increments `test_index`.

The callback (`_prepare_callback`) first calls `test_info.test_finished()`
— which reads the *current* `stop_time - start_time` — and only afterwards,
when `elapsed_times` is off, zeroes `start_time`/`stop_time`; the record's
`elapsed_time` has already been taken from the real instants by then. -/
def stopTest (t : Int) (s : XMLTestResult) : XMLTestResult :=
  let s1 := { s with stop_time := t }
  let s2 :=
    match s1.callback with
    | none => s1
    | some b =>
      let s3 := applyToBucket b
        (finishInfo s1.test_index (s1.stop_time - s1.start_time)) s1
      let s4 := if s3.elapsed_times then s3
        else { s3 with start_time := 0, stop_time := 0 }
      { s4 with callback := none }
  { s2 with test_index := s2.test_index + 1 }

/-- The captured output a record gets when `per_test_output` is on:
`sys.stdout.getvalue()` / `sys.stderr.getvalue()` at the add-call
(the buffer contents are supplied by the event). -/
def capturedOf (per_test_output : Bool) (buf : String) : Option String :=
  if per_test_output then some buf else none

/-- `_XMLTestResult.addSuccess`: builds a Success record (with per-test
captured output when enabled) and `_prepare_callback(testinfo,
self.successes, 'OK', '.')` appends it to `successes`. -/
def addSuccess (ref : TestRef) (bufOut bufErr : String) (s : XMLTestResult) :
    XMLTestResult :=
  let ti := mkTestInfo ref.test_name ref.test_id ref.desc SUCCESS none
    (capturedOf s.per_test_output bufOut) (capturedOf s.per_test_output bufErr)
  { s with successes := s.successes ++ [ti], callback := some .successesB }

/-- `_XMLTestResult.addFailure`: builds the record with outcome
`_TestInfo.ERROR` (that is what the source passes — not `_TestInfo.FAILURE`)
and appends `(testinfo, exc_string)` to `self.errors`; the callback target
list passed to `_prepare_callback` is a throwaway `[]`, but the closure still
captures this record (the last element of `errors`). -/
def addFailure (ref : TestRef) (ty msg tr : String) (bufOut bufErr : String)
    (s : XMLTestResult) : XMLTestResult :=
  let e : ErrData := .exc ty msg tr
  let ti := mkTestInfo ref.test_name ref.test_id ref.desc ERROR (some e)
    (capturedOf s.per_test_output bufOut) (capturedOf s.per_test_output bufErr)
  { s with errors := s.errors ++ [(ti, exc_info_to_string (some e))],
           callback := some .errorsB }

/-- `_XMLTestResult.addError`: same as `addFailure` (outcome
`_TestInfo.ERROR`, appended to `self.errors`). -/
def addError (ref : TestRef) (ty msg tr : String) (bufOut bufErr : String)
    (s : XMLTestResult) : XMLTestResult :=
  let e : ErrData := .exc ty msg tr
  let ti := mkTestInfo ref.test_name ref.test_id ref.desc ERROR (some e)
    (capturedOf s.per_test_output bufOut) (capturedOf s.per_test_output bufErr)
  { s with errors := s.errors ++ [(ti, exc_info_to_string (some e))],
           callback := some .errorsB }

/-- `_XMLTestResult.addSkip`: builds a `SKIP` record whose `err` is the
reason string and appends `(testinfo, reason)` to `self.skipped`. -/
def addSkip (ref : TestRef) (reason : String) (bufOut bufErr : String)
    (s : XMLTestResult) : XMLTestResult :=
  let ti := mkTestInfo ref.test_name ref.test_id ref.desc SKIP
    (some (.reason reason))
    (capturedOf s.per_test_output bufOut) (capturedOf s.per_test_output bufErr)
  { s with skipped := s.skipped ++ [(ti, reason)], callback := some .skippedB }

/-- One lifecycle call from the execution engine.  Buffer contents and
instants are data of the event (they come from the outside world). -/
inductive Event where
  | startEv (ref : TestRef) (t : Int)
  | successEv (ref : TestRef) (bufOut bufErr : String)
  | failureEv (ref : TestRef) (ty msg tr : String) (bufOut bufErr : String)
  | errorEv (ref : TestRef) (ty msg tr : String) (bufOut bufErr : String)
  | skipEv (ref : TestRef) (reason : String) (bufOut bufErr : String)
  | stopEv (t : Int)
deriving Repr

/-- Dispatch one lifecycle call on the result object. -/
def step (s : XMLTestResult) : Event → XMLTestResult
  | .startEv _ t => startTest t s
  | .successEv ref o e => addSuccess ref o e s
  | .failureEv ref ty m tr o e => addFailure ref ty m tr o e s
  | .errorEv ref ty m tr o e => addError ref ty m tr o e s
  | .skipEv ref r o e => addSkip ref r o e s
  | .stopEv t => stopTest t s

/-- Run a sequence of lifecycle calls. -/
def runEvents (s : XMLTestResult) (evs : List Event) : XMLTestResult :=
  evs.foldl step s

/-- The outcome part of one test's lifecycle. -/
inductive TestAct where
  | succeeded
  | failed (ty msg tr : String)
  | errored (ty msg tr : String)
  | wasSkipped (reason : String)
deriving Repr

/-- One complete test execution as the engine drives it:
start → exactly one add-call → stop. -/
structure TestExec where
  ref : TestRef
  act : TestAct
  startT : Int
  stopT : Int
  bufOut : String
  bufErr : String
deriving Repr

/-- The add-call of one execution. -/
def actEvent (e : TestExec) : Event :=
  match e.act with
  | .succeeded => .successEv e.ref e.bufOut e.bufErr
  | .failed ty m tr => .failureEv e.ref ty m tr e.bufOut e.bufErr
  | .errored ty m tr => .errorEv e.ref ty m tr e.bufOut e.bufErr
  | .wasSkipped r => .skipEv e.ref r e.bufOut e.bufErr

/-- The three lifecycle calls of one execution, in contract order. -/
def eventsOf (e : TestExec) : List Event :=
  [.startEv e.ref e.startT, actEvent e, .stopEv e.stopT]

/-- The whole run's event trace for a list of sequential executions. -/
def traceOf (execs : List TestExec) : List Event :=
  (execs.map eventsOf).flatten

/-- Run a list of complete test executions from a fresh result object. -/
def runExecs (elapsed_times per_test_output : Bool) (execs : List TestExec) :
    XMLTestResult :=
  runEvents (initResult elapsed_times per_test_output) (traceOf execs)

/-- All records, in the order `_get_info_by_testcase` flattens the buckets
(`self.successes, self.failures, self.errors, self.skipped`). -/
def flatInfos (s : XMLTestResult) : List TestInfo :=
  s.successes ++ s.failures.map Prod.fst ++ s.errors.map Prod.fst ++
    s.skipped.map Prod.fst

/-- One fold step of building the `OrderedDict`: `if not name in d:
d[name] = []` then `d[name].append(ti)`.  An `OrderedDict` keeps keys in
first-insertion order, modelled by an association list. -/
def addToGroup (acc : List (String × List TestInfo)) (name : String)
    (ti : TestInfo) : List (String × List TestInfo) :=
  if acc.any (fun p => p.1 == name) then
    acc.map (fun p => if p.1 == name then (p.1, p.2 ++ [ti]) else p)
  else
    acc ++ [(name, [ti])]

/-- The key-stable sort `testcase_list.sort(key=lambda x: x[1].test_index)`
(Python's sort is stable; `List.insertionSort` is a stable sort, and all
stable sorts agree). -/
def sortByIndex (l : List (String × TestInfo)) : List (String × TestInfo) :=
  l.insertionSort (fun a b => a.2.test_index ≤ b.2.test_index)

/-- The `testcase_list` built by `_get_info_by_testcase`: every record of the
four buckets tagged with its `test_name`. -/
def taggedList (s : XMLTestResult) : List (String × TestInfo) :=
  (flatInfos s).map (fun ti => (ti.test_name, ti))

/-- The `OrderedDict` fold over the sorted pair list. -/
def groupFold (l : List (String × TestInfo)) : List (String × List TestInfo) :=
  l.foldl (fun acc p => addToGroup acc p.1 p.2) []

/-- `_XMLTestResult._get_info_by_testcase`: flatten the four buckets
(unwrapping the `(test_info, text)` tuples), tag each record with its
`test_name`, sort by `test_index`, and fold into an insertion-ordered
mapping from suite name to record list. -/
def get_info_by_testcase (s : XMLTestResult) :
    List (String × List TestInfo) :=
  groupFold (sortByIndex (taggedList s))

/-- First-seen key order of an `OrderedDict` built by repeated
insert-if-absent. -/
def firstSeenKeys (l : List String) : List String :=
  l.foldl (fun ks n => if ks.any (fun m => m == n) then ks else ks ++ [n]) []

/-- The entry the canonical grouped form holds for key `n`. -/
def canonEntry (l : List (String × TestInfo)) (n : String) :
    String × List TestInfo :=
  (n, (l.filter (fun p => p.1 == n)).map Prod.snd)

/-- A minidom node as this code builds them: elements with attributes in
`setAttribute` order, plus CDATA text sections. -/
inductive XmlNode where
  | elem (name : String) (attrs : List (String × String)) (children : List XmlNode)
  | cdata (text : String)

/-- Children of a node (`childNodes`). -/
def XmlNode.childNodes : XmlNode → List XmlNode
  | .elem _ _ c => c
  | .cdata _ => []

/-- Attributes of a node. -/
def XmlNode.attrsOf : XmlNode → List (String × String)
  | .elem _ a _ => a
  | .cdata _ => []

/-- Tag-name test. -/
def XmlNode.isElemNamed (n : String) : XmlNode → Bool
  | .elem m _ _ => m == n
  | .cdata _ => false

/-- `'%.3f' % t` for the integral instants of this model (`time.time()`
differences are supplied as whole numbers, so the three decimals are zeros). -/
def format3f (t : Int) : String :=
  toString t ++ ".000"

/-- `err[0].__name__` for a failure/error record. -/
def errTypeName : Option ErrData → String
  | some (.exc ty _ _) => ty
  | _ => ""

/-- `str(err[1])` for a failure/error record. -/
def errMsgStr : Option ErrData → String
  | some (.exc _ m _) => m
  | _ => ""

/-- The reason string stored in `err` by `addSkip`. -/
def errReasonStr : Option ErrData → String
  | some (.reason r) => r
  | _ => ""

/-- The attributes `_report_testsuite` sets on the `testsuite` element, in
`setAttribute` order. -/
def testsuite_attrs (suite_name outsuffix : String) (tests : List TestInfo) :
    List (String × String) :=
  [("name", suite_name ++ "-" ++ outsuffix),
   ("tests", toString tests.length),
   ("time", format3f ((tests.map (fun e => e.elapsed_time)).sum)),
   ("failures",
     toString (tests.filter (fun e => e.outcome == FAILURE)).length),
   ("errors",
     toString (tests.filter (fun e => e.outcome == ERROR)).length)]

/-- `_XMLTestResult._report_testcase`: the testcase element with its
optional diagnostic child (`('failure', 'error', 'skipped')[outcome - 1]`)
and optional `system-out` / `system-err` blocks, all text sanitized. -/
def report_testcase (suite_name : String) (tr : TestInfo) : XmlNode :=
  let diag : List XmlNode :=
    if tr.outcome != SUCCESS then
      let elem_name := ["failure", "error", "skipped"].getD (tr.outcome - 1) ""
      if tr.outcome != SKIP then
        [.elem elem_name
          [("type", errTypeName tr.err),
           ("message", xml_safe_str (errMsgStr tr.err))]
          [.cdata (xml_safe_str tr.get_error_info)]]
      else
        [.elem elem_name
          [("type", "skip"),
           ("message", xml_safe_str (errReasonStr tr.err))] []]
    else []
  let sysout : List XmlNode :=
    if optStrTruthy tr.get_std_output then
      [.elem "system-out" [] [.cdata (xml_safe_str (tr.std_output.getD ""))]]
    else []
  let syserr : List XmlNode :=
    if optStrTruthy tr.get_err_output then
      [.elem "system-err" [] [.cdata (xml_safe_str (tr.err_output.getD ""))]]
    else []
  .elem "testcase"
    [("classname", suite_name),
     ("name", test_method_name tr.test_id),
     ("time", format3f tr.elapsed_time)]
    (diag ++ sysout ++ syserr)

/-- `_XMLTestResult._report_output`: the suite-level aggregate
`system-out` / `system-err` blocks (contents are the run-wide capture
buffers, supplied as arguments). -/
def report_output (aggOut aggErr : String) : List XmlNode :=
  [.elem "system-out" [] [.cdata (xml_safe_str aggOut)],
   .elem "system-err" [] [.cdata (xml_safe_str aggErr)]]

/-- `_XMLTestResult._add_xml_report`: the `testsuite` element for one suite —
`_report_testsuite` attributes, one `_report_testcase` child per record, and
the aggregate `_report_output` blocks when `per_test_output` is off. -/
def add_xml_report (per_test_output : Bool) (outsuffix : String)
    (aggOut aggErr : String) (suite : String) (tests : List TestInfo) :
    XmlNode :=
  .elem "testsuite" (testsuite_attrs suite outsuffix tests)
    (tests.map (report_testcase suite) ++
      (if !per_test_output then report_output aggOut aggErr else []))

/-- Index of the last occurrence of `c` (`str.rfind`, `none` for `-1`). -/
def lastIdxOf (c : Char) : List Char → Option Nat
  | [] => none
  | a :: rest =>
    match lastIdxOf c rest with
    | some i => some (i + 1)
    | none => if a == c then some 0 else none

/-- `os.path.splitext` (posix): split off the extension at the last dot,
provided that dot lies after the last separator and the basename has at
least one non-dot character before it (so a leading-dot filename such as
`.profile` has no extension). -/
def splitext (p : String) : String × String :=
  let l := p.data
  let fi : Nat :=
    match lastIdxOf '/' l with
    | none => 0
    | some sepIdx => sepIdx + 1
  match lastIdxOf '.' l with
  | none => (p, "")
  | some d =>
    if fi ≤ d then
      if ((l.drop fi).take (d - fi)).any (fun c => c != '.') then
        (⟨l.take d⟩, ⟨l.drop d⟩)
      else (p, "")
    else (p, "")

/-- `rstrip('/')`. -/
def rstripSlash (l : List Char) : List Char :=
  (l.reverse.dropWhile (fun c => c == '/')).reverse

/-- `os.path.split` (posix): break at the last separator; the head keeps no
trailing separators unless it is all separators. -/
def splitPath (p : String) : String × String :=
  let l := p.data
  let i : Nat :=
    match lastIdxOf '/' l with
    | none => 0
    | some sepIdx => sepIdx + 1
  let head := l.take i
  let tail := l.drop i
  let head2 :=
    if head ≠ [] ∧ ¬ head.all (fun c => c == '/') then rstripSlash head
    else head
  (⟨head2⟩, ⟨tail⟩)

/-- `output.lower().endswith(".xml")`: lowercase character-wise, then test
the four-character suffix. -/
def lowerEndsWithXml (o : String) : Bool :=
  ((o.data.map Char.toLower).reverse.take 4) == ['l', 'm', 'x', '.']

/-- The runner's configured output target: a path string, or an already-open
stream. -/
inductive Output where
  | path (s : String)
  | stream
deriving Repr

/-- The `XMLTestRunner` fields `generate_reports` reads. -/
structure Runner where
  output : Output
  outsuffix : String
deriving Repr

/-- One observable filesystem / stream action of `generate_reports`.
A written document is modelled by its root nodes. -/
inductive FsOp where
  | makedirs (d : String)
  | writeFile (name : String) (doc : List XmlNode)
  | streamWrite (doc : List XmlNode)

/-- Tag test for `FsOp`. -/
def FsOp.isWrite : FsOp → Bool
  | .writeFile _ _ => true
  | _ => false

/-- `_XMLTestResult.generate_reports`, as the sequence of filesystem/stream
actions it performs.  `exists_fn` models `os.path.exists` and `abspath`
models `os.path.abspath` (both are environment queries); `os.sep` is `/`. -/
def generate_reports (exists_fn : String → Bool) (abspath : String → String)
    (r : Runner) (s : XMLTestResult) (aggOut aggErr : String) : List FsOp :=
  let all_results := get_info_by_testcase s
  let render := fun (p : String × List TestInfo) =>
    add_xml_report s.per_test_output r.outsuffix aggOut aggErr p.1 p.2
  match r.output with
  | .path o =>
    if !(lowerEndsWithXml o) then
      (if exists_fn o then [] else [.makedirs o]) ++
      all_results.map (fun p =>
        let filename :=
          if r.outsuffix != "" then
            o ++ "/" ++ "TEST-" ++ p.1 ++ "-" ++ r.outsuffix ++ ".xml"
          else
            o ++ "/" ++ "TEST-" ++ p.1 ++ ".xml"
        .writeFile filename [render p])
    else
      let a := abspath o
      let fe := splitext a
      let db := splitPath a
      (if exists_fn db.1 then [] else [.makedirs db.1]) ++
      [.writeFile
        (if r.outsuffix != "" then fe.1 ++ "-" ++ r.outsuffix ++ fe.2
         else fe.1 ++ fe.2)
        [.elem "testsuites" [] (all_results.map render)]]
  | .stream =>
    all_results.map (fun p => .streamWrite [render p])

/-- A process-wide output channel: either an original stream or a
`_DelegateIO` wrapper around one. -/
inductive Chan where
  | base (id : Nat)
  | delegated (inner : Chan)
deriving DecidableEq, Repr

/-- The pair `sys.stdout`, `sys.stderr`. -/
structure SysStreams where
  stdout : Chan
  stderr : Chan
deriving DecidableEq, Repr

/-- `XMLTestRunner._patch_standard_output`: wrap both channels in
`_DelegateIO`. -/
def patch_standard_output (s : SysStreams) : SysStreams :=
  { stdout := .delegated s.stdout, stderr := .delegated s.stderr }

/-- `XMLTestRunner._restore_standard_output`: `sys.stdout =
sys.stdout.delegate` — reading `.delegate` raises (`none`) unless the
installed channel is a `_DelegateIO`. -/
def restore_standard_output (s : SysStreams) : Option SysStreams :=
  match s.stdout, s.stderr with
  | .delegated o, .delegated e => some { stdout := o, stderr := e }
  | _, _ => none

/-- `XMLTestRunner.run`'s scoped-channel discipline.  The whole try-block
after the patch (building the result, executing the tests, printing, and
generating the reports) is the abstract `body`: it observes the installed
channels and threads its own state `w`, returning either a value or the
exception it raised; exceptions are values of the `Except`, so the
`finally`-clause restore runs unconditionally after it.  The body does not
reassign the process channels (the source owns them for the run's
duration).  Returns the body's outcome, the channels installed after the
`finally` (`none` would be a crash of the restore itself), and the body's
final state. -/
def XMLTestRunner_run (body : SysStreams → σ → Except ε α × σ)
    (s0 : SysStreams) (w : σ) : (Except ε α × Option SysStreams × σ) :=
  let s1 := patch_standard_output s0
  let (res, w1) := body s1 w
  (res, restore_standard_output s1, w1)

/-- The record one execution's add-call constructs (before `test_finished`
runs): outcome, `err` payload and optional per-test captured output, exactly
as `addSuccess`/`addFailure`/`addError`/`addSkip` pass them to
`_TestInfo.__init__`. -/
def mkExecInfo (pto : Bool) (e : TestExec) : TestInfo :=
  match e.act with
  | .succeeded =>
    mkTestInfo e.ref.test_name e.ref.test_id e.ref.desc SUCCESS none
      (capturedOf pto e.bufOut) (capturedOf pto e.bufErr)
  | .failed ty m tr =>
    mkTestInfo e.ref.test_name e.ref.test_id e.ref.desc ERROR
      (some (.exc ty m tr))
      (capturedOf pto e.bufOut) (capturedOf pto e.bufErr)
  | .errored ty m tr =>
    mkTestInfo e.ref.test_name e.ref.test_id e.ref.desc ERROR
      (some (.exc ty m tr))
      (capturedOf pto e.bufOut) (capturedOf pto e.bufErr)
  | .wasSkipped r =>
    mkTestInfo e.ref.test_name e.ref.test_id e.ref.desc SKIP
      (some (.reason r))
      (capturedOf pto e.bufOut) (capturedOf pto e.bufErr)

/-- The record as it stands after `test_finished` ran at the stop call with
counter value `idx`. -/
def finishedInfo (pto : Bool) (e : TestExec) (idx : Nat) : TestInfo :=
  finishInfo idx (e.stopT - e.startT) (mkExecInfo pto e)

/-- The state after one full execution `start → add → stop` from a state
whose callback slot is empty. -/
def execPost (s : XMLTestResult) (e : TestExec) : XMLTestResult :=
  let fin := finishedInfo s.per_test_output e s.test_index
  let s' :=
    match e.act with
    | .succeeded => { s with successes := s.successes ++ [fin] }
    | .failed _ _ tr => { s with errors := s.errors ++ [(fin, tr)] }
    | .errored _ _ tr => { s with errors := s.errors ++ [(fin, tr)] }
    | .wasSkipped r => { s with skipped := s.skipped ++ [(fin, r)] }
  { s' with callback := none,
            test_index := s.test_index + 1,
            start_time := if s.elapsed_times then e.startT else 0,
            stop_time := if s.elapsed_times then e.stopT else 0 }

/-- The finished records a run of `execs` accumulates when the counter
starts at `base`, in completion order. -/
def expectedInfos (pto : Bool) (base : Nat) : List TestExec → List TestInfo
  | [] => []
  | e :: rest => finishedInfo pto e base :: expectedInfos pto (base + 1) rest

/-- The state in the middle of one test's lifecycle: after its start call
and its outcome add-call, before its stop call. -/
def midRun (et pto : Bool) (execs : List TestExec) (e : TestExec) :
    XMLTestResult :=
  runEvents (runExecs et pto execs) [.startEv e.ref e.startT, actEvent e]

/-- The write-file name directory mode uses for one suite. -/
def dirFileName (o outsuffix suite : String) : String :=
  if outsuffix != "" then
    o ++ "/" ++ "TEST-" ++ suite ++ "-" ++ outsuffix ++ ".xml"
  else
    o ++ "/" ++ "TEST-" ++ suite ++ ".xml"

/-- The filename of a write op (`none` for the other ops). -/
def FsOp.writeName : FsOp → Option String
  | .writeFile n _ => some n
  | _ => none

/-- Modelled from the spec: "`message` (first line of the error ...)" — the
prefix of the text up to the first newline.  This follows the spec's words;
the source has no such computation, and the refinement claim C6 compares the
two. -/
def spec_firstLine (s : String) : String :=
  ⟨s.data.takeWhile (fun c => c != '\n')⟩

/-- Fixture: a test in suite `mod.SuiteA`. -/
def refA : TestRef := ⟨"mod.SuiteA", "mod.SuiteA.test_one", "test one"⟩

/-- Fixture: a test in suite `mod.SuiteB`. -/
def refB : TestRef := ⟨"mod.SuiteB", "mod.SuiteB.test_two", "test two"⟩

/-- Fixture: a second test in suite `mod.SuiteA`. -/
def refC : TestRef := ⟨"mod.SuiteA", "mod.SuiteA.test_three", "test three"⟩

/-- Fixture: a passing execution taking 2 time units. -/
def execPass : TestExec := ⟨refA, .succeeded, 10, 12, "", ""⟩

/-- Fixture: an execution reported through `addFailure`. -/
def execFail : TestExec :=
  ⟨refB, .failed "AssertionError" "nope" "Traceback: nope", 12, 15, "", ""⟩

/-- Fixture: a skipped execution. -/
def execSkip : TestExec := ⟨refC, .wasSkipped "not supported", 15, 16, "", ""⟩

/-- Fixture: a failure/error record whose error text spans two lines. -/
def trC6 : TestInfo :=
  mkTestInfo "m.S" "m.S.t" "t" ERROR
    (some (.exc "AssertionError" "boom\nextra" "tb line")) none none

/-! ## Theorems -/

/-- The diagnostic element's tag (`('failure', 'error', 'skipped')[outcome -
1]`) is never one of the captured-output tags. -/
theorem diag_name_ne_system (n : Nat) :
    ((["failure", "error", "skipped"].getD n "") == "system-out") = false ∧
    ((["failure", "error", "skipped"].getD n "") == "system-err") = false := by
  match n with
  | 0 => exact ⟨by decide, by decide⟩
  | 1 => exact ⟨by decide, by decide⟩
  | 2 => exact ⟨by decide, by decide⟩
  | (m + 3) => refine ⟨?_, ?_⟩ <;> simp [List.getD]

/-- Claim C4: on every unicode input, and on every byte input decodable
under the configured encoding (which is decoded first), `xml_safe_unicode`
returns — never raises — a string containing no character of the illegal
XML 1.0 set: code points below U+0020 other than tab, newline and carriage
return, the surrogate range U+D800–U+DFFF, U+FFFE and U+FFFF.  Illegal
characters are dropped, not rejected. -/
theorem C4_xml_safe_unicode_drops_illegal
    (decode : List Nat → Option (List Nat)) (base : TextBase)
    (h : (∃ s, base = .ustr s) ∨ ∃ b s, base = .bytes b ∧ decode b = some s) :
    ∃ out, xml_safe_unicode decode base = some out ∧
      ∀ c ∈ out, isInvalidXmlChar c = false := by
  rcases h with ⟨s, rfl⟩ | ⟨b, s, rfl, hdec⟩
  · refine ⟨sub_invalid s, rfl, ?_⟩
    intro c hc
    rw [sub_invalid, List.mem_filter] at hc
    simpa using hc.2
  · refine ⟨sub_invalid s, ?_, ?_⟩
    · simp [xml_safe_unicode, hdec]
    · intro c hc
      rw [sub_invalid, List.mem_filter] at hc
      simpa using hc.2

/-- Witness for C4: a unicode string holding a bell character, a lone
surrogate, a tab and U+FFFE is sanitized without failing, and the output
has no illegal code point. -/
theorem C4_witness :
    ((∃ s, TextBase.ustr [65, 7, 0xD800, 9, 0xFFFE] = TextBase.ustr s) ∨
      ∃ b s, TextBase.ustr [65, 7, 0xD800, 9, 0xFFFE] = TextBase.bytes b ∧
        some b = some s) ∧
    ∃ out, xml_safe_unicode some (.ustr [65, 7, 0xD800, 9, 0xFFFE]) =
        some out ∧ ∀ c ∈ out, isInvalidXmlChar c = false :=
  ⟨Or.inl ⟨_, rfl⟩,
    C4_xml_safe_unicode_drops_illegal some _ (Or.inl ⟨_, rfl⟩)⟩

/-- Claim C9: `run` wraps the whole try-block: the body executes against the
patched channels, and the `finally` restore reinstalls the original channels
on every exit path — the final installed pair is `some s0` whether the body
returned a value or an exception, and the body's outcome (normal or raised)
passes through unchanged. -/
theorem C9_run_restores_channels {σ ε α : Type}
    (body : SysStreams → σ → Except ε α × σ) (s0 : SysStreams) (w : σ) :
    XMLTestRunner_run body s0 w =
      ((body (patch_standard_output s0) w).1, some s0,
        (body (patch_standard_output s0) w).2) := by
  simp [XMLTestRunner_run, patch_standard_output, restore_standard_output]

/-- Claim C10: a rendered testcase entry has a `system-out` (resp.
`system-err`) child exactly when the record's captured standard output
(resp. standard error) is present and non-empty; `None` and the empty
string (a test that wrote nothing under per-test capture) both render no
block. -/
theorem C10_system_blocks_iff_nonempty (suite : String) (tr : TestInfo) :
    (((report_testcase suite tr).childNodes.filter
        (XmlNode.isElemNamed "system-out")).length
      = if optStrTruthy tr.get_std_output then 1 else 0)
  ∧ (((report_testcase suite tr).childNodes.filter
        (XmlNode.isElemNamed "system-err")).length
      = if optStrTruthy tr.get_err_output then 1 else 0) := by
  obtain ⟨h1, h2⟩ := diag_name_ne_system (tr.outcome - 1)
  simp only [List.getD_eq_getElem?_getD] at h1 h2
  simp only [report_testcase, XmlNode.childNodes, List.filter_append]
  constructor <;> split_ifs <;>
    simp [XmlNode.isElemNamed, List.filter, h1, h2]

/-- Claim C1 (failing evaluation): in a run whose single test is reported
through the test-failed call (`addFailure`), the rendered suite carries
`failures="0"` and `errors="1"`: `addFailure` builds the record with outcome
`_TestInfo.ERROR` and appends it to `self.errors`, so it is counted in
`errors`, not `failures` — against the claim. -/
theorem C1_addFailure_rendered_as_error :
    (get_info_by_testcase (runExecs true false [execFail])).map
        (fun p => (add_xml_report false "X" "" "" p.1 p.2).attrsOf)
      = [[("name", "mod.SuiteB-X"), ("tests", "1"), ("time", "3.000"),
          ("failures", "0"), ("errors", "1")]] := by
  decide

/-- Claim C2 (failing evaluation): with `elapsed_times = False`, a passing
test running from instant 10 to instant 12 still stores elapsed time 2 and
renders `time="2.000"` (not `0.000`): the callback calls `test_finished()`
— which reads the real `stop_time - start_time` — before it zeroes the
instants, so the zeroing never affects the report. -/
theorem C2_disabled_timing_still_real :
    ((flatInfos (runExecs false false [execPass])).map
        (fun t => t.elapsed_time) = [2])
  ∧ (get_info_by_testcase (runExecs false false [execPass])).map
        (fun p => p.2.map (fun t => (report_testcase p.1 t).attrsOf))
      = [[[("classname", "mod.SuiteA"), ("name", "test_one"),
           ("time", "2.000")]]] := by
  exact ⟨by decide, by decide⟩

/-- Claim C6 (counterexample): for the two-line error text `"boom\nextra"`
the rendered `message` attribute is the entire sanitized text, not its
first line `"boom"`. -/
theorem C6_counterexample_message_not_first_line :
    (report_testcase "m.S" trC6).childNodes.head? =
      some (.elem "error"
        [("type", "AssertionError"), ("message", "boom\nextra")]
        [.cdata "tb line"])
  ∧ ("boom\nextra" : String) ≠ spec_firstLine "boom\nextra" := by
  exact ⟨rfl, by decide⟩

/-- Claim C6 (amended): for every Failure or Error record the diagnostic
element carries `type` = the exception's category name, `message` = the
*entire* error text (`str(err[1])`) sanitized — not only its first line —
and the full formatted trace as the escaped text block. -/
theorem C6_diagnostic_type_message_trace (suite ty msg tr : String)
    (r : TestInfo)
    (ho : r.outcome = FAILURE ∨ r.outcome = ERROR)
    (he : r.err = some (.exc ty msg tr)) :
    ∃ rest, (report_testcase suite r).childNodes =
      .elem (["failure", "error", "skipped"].getD (r.outcome - 1) "")
        [("type", ty), ("message", xml_safe_str msg)]
        [.cdata (xml_safe_str r.test_exception_info)] :: rest := by
  rcases ho with h | h <;>
    simp [report_testcase, XmlNode.childNodes, h, he, errTypeName,
      errMsgStr, TestInfo.get_error_info, FAILURE, ERROR, SUCCESS, SKIP]

/-- Updating the last element of a snoc list. -/
theorem updLast_append_singleton (f : α → α) :
    ∀ (l : List α) (a : α), updLast f (l ++ [a]) = l ++ [f a]
  | [], _ => rfl
  | [_], _ => rfl
  | x :: y :: rest, a => by
    have ih := updLast_append_singleton f (y :: rest) a
    simp only [List.cons_append, updLast] at ih ⊢
    exact congrArg (fun l => x :: l) ih

/-- A snoc in the middle of an append is a permutation of a leading cons. -/
theorem perm_snoc_cons (X Y : List α) (x : α) :
    ((X ++ [x]) ++ Y).Perm (x :: (X ++ Y)) := by
  have h : (X ++ [x]) ++ Y = X ++ (x :: Y) := by simp
  rw [h]
  exact List.perm_middle

/-- One full execution (start → add → stop) from a callback-free state
lands exactly on `execPost`. -/
theorem runEvents_eventsOf (s : XMLTestResult) (hc : s.callback = none)
    (e : TestExec) : runEvents s (eventsOf e) = execPost s e := by
  obtain ⟨ref, act, startT, stopT, bufOut, bufErr⟩ := e
  by_cases he : s.elapsed_times <;> cases act <;>
    simp [runEvents, eventsOf, actEvent, step, startTest, addSuccess,
      addFailure, addError, addSkip, stopTest, applyToBucket, execPost,
      finishedInfo, mkExecInfo, updLast_append_singleton, hc, he, finishInfo,
      exc_info_to_string]

/-- The bookkeeping fields of `execPost`. -/
theorem execPost_fields (s : XMLTestResult) (e : TestExec) :
    (execPost s e).callback = none
  ∧ (execPost s e).test_index = s.test_index + 1
  ∧ (execPost s e).per_test_output = s.per_test_output
  ∧ (execPost s e).elapsed_times = s.elapsed_times := by
  obtain ⟨ref, act, startT, stopT, bufOut, bufErr⟩ := e
  cases act <;> simp [execPost]

/-- One execution appends exactly one finished record (up to bucket
position) carrying the pre-increment counter value. -/
theorem flatInfos_execPost (s : XMLTestResult) (e : TestExec) :
    (flatInfos (execPost s e)).Perm
      (finishedInfo s.per_test_output e s.test_index :: flatInfos s) := by
  obtain ⟨ref, act, startT, stopT, bufOut, bufErr⟩ := e
  cases act with
  | succeeded =>
    simp only [execPost, flatInfos, List.map_append]
    simpa [List.append_assoc] using
      (@List.perm_middle _ _ s.successes
        (s.failures.map Prod.fst ++ s.errors.map Prod.fst ++
          s.skipped.map Prod.fst))
  | failed ty m tr =>
    simp only [execPost, flatInfos, List.map_append]
    simpa [List.append_assoc] using
      (@List.perm_middle _ _
        (s.successes ++ s.failures.map Prod.fst ++ s.errors.map Prod.fst)
        (s.skipped.map Prod.fst))
  | errored ty m tr =>
    simp only [execPost, flatInfos, List.map_append]
    simpa [List.append_assoc] using
      (@List.perm_middle _ _
        (s.successes ++ s.failures.map Prod.fst ++ s.errors.map Prod.fst)
        (s.skipped.map Prod.fst))
  | wasSkipped r =>
    simp only [execPost, flatInfos, List.map_append]
    exact List.Perm.trans (by simp) (List.perm_append_singleton _ _)

/-- Running a list of full executions from any callback-free state: the
records it adds are exactly the finished records, indexed consecutively
from the starting counter, and the counter advances by the number of
executions. -/
theorem runEvents_traceOf (execs : List TestExec) :
    ∀ s : XMLTestResult, s.callback = none →
      (flatInfos (runEvents s (traceOf execs))).Perm
          (flatInfos s ++ expectedInfos s.per_test_output s.test_index execs)
      ∧ (runEvents s (traceOf execs)).test_index = s.test_index + execs.length
      ∧ (runEvents s (traceOf execs)).callback = none
      ∧ (runEvents s (traceOf execs)).per_test_output = s.per_test_output
      ∧ (runEvents s (traceOf execs)).elapsed_times = s.elapsed_times := by
  induction execs with
  | nil =>
    intro s hc
    simp [traceOf, runEvents, expectedInfos, hc]
  | cons e rest ih =>
    intro s hc
    obtain ⟨hpcb, hpidx, hppto, hpet⟩ := execPost_fields s e
    have hrun : runEvents s (traceOf (e :: rest)) =
        runEvents (execPost s e) (traceOf rest) := by
      rw [show traceOf (e :: rest) = eventsOf e ++ traceOf rest by
            simp [traceOf],
          runEvents, List.foldl_append, ← runEvents, ← runEvents,
          runEvents_eventsOf s hc e]
    obtain ⟨ihperm, ihidx, ihcb, ihpto, ihet⟩ := ih (execPost s e) hpcb
    rw [hrun]
    refine ⟨?_, ?_, ihcb, by rw [ihpto, hppto], by rw [ihet, hpet]⟩
    · have h1 : (flatInfos (runEvents (execPost s e) (traceOf rest))).Perm
          ((finishedInfo s.per_test_output e s.test_index :: flatInfos s) ++
            expectedInfos s.per_test_output (s.test_index + 1) rest) := by
        have hp := ihperm
        rw [hppto, hpidx] at hp
        exact hp.trans ((flatInfos_execPost s e).append_right _)
      refine h1.trans ?_
      have h2 : flatInfos s ++
          expectedInfos s.per_test_output s.test_index (e :: rest) =
          flatInfos s ++
            (finishedInfo s.per_test_output e s.test_index ::
              expectedInfos s.per_test_output (s.test_index + 1) rest) := rfl
      rw [h2]
      exact List.perm_middle.symm
    · rw [ihidx, hpidx]
      simp only [List.length_cons]
      omega

/-- The finished records of a run are indexed consecutively from the base. -/
theorem expectedInfos_map_index (pto : Bool) :
    ∀ (execs : List TestExec) (base : Nat),
      (expectedInfos pto base execs).map (fun t => t.test_index) =
        List.range' base execs.length := by
  intro execs
  induction execs with
  | nil => intro base; simp [expectedInfos]
  | cons e rest ih =>
    intro base
    simp [expectedInfos, List.range'_succ, finishedInfo, finishInfo, ih]

/-- A freshly constructed record still carries the initial index 0. -/
theorem mkExecInfo_test_index (pto : Bool) (e : TestExec) :
    (mkExecInfo pto e).test_index = 0 := by
  obtain ⟨ref, act, startT, stopT, bufOut, bufErr⟩ := e
  cases act <;> simp [mkExecInfo, mkTestInfo]

/-- After a start call and an add call (before the stop call) the new record
has been appended to its bucket but the counter is untouched. -/
theorem runEvents_startAdd (s : XMLTestResult) (e : TestExec) :
    (flatInfos (runEvents s [.startEv e.ref e.startT, actEvent e])).Perm
        (mkExecInfo s.per_test_output e :: flatInfos s)
    ∧ (runEvents s [.startEv e.ref e.startT, actEvent e]).test_index =
        s.test_index := by
  obtain ⟨ref, act, startT, stopT, bufOut, bufErr⟩ := e
  cases act with
  | succeeded =>
    refine ⟨?_, rfl⟩
    simp only [runEvents, List.foldl, step, startTest, addSuccess, actEvent,
      mkExecInfo, flatInfos, List.map_append]
    simpa [List.append_assoc] using
      (@List.perm_middle _ _ s.successes
        (s.failures.map Prod.fst ++ s.errors.map Prod.fst ++
          s.skipped.map Prod.fst))
  | failed ty m tr =>
    refine ⟨?_, rfl⟩
    simp only [runEvents, List.foldl, step, startTest, addFailure, actEvent,
      mkExecInfo, flatInfos, List.map_append]
    simpa [List.append_assoc] using
      (@List.perm_middle _ _
        (s.successes ++ s.failures.map Prod.fst ++ s.errors.map Prod.fst)
        (s.skipped.map Prod.fst))
  | errored ty m tr =>
    refine ⟨?_, rfl⟩
    simp only [runEvents, List.foldl, step, startTest, addError, actEvent,
      mkExecInfo, flatInfos, List.map_append]
    simpa [List.append_assoc] using
      (@List.perm_middle _ _
        (s.successes ++ s.failures.map Prod.fst ++ s.errors.map Prod.fst)
        (s.skipped.map Prod.fst))
  | wasSkipped r =>
    refine ⟨?_, rfl⟩
    simp only [runEvents, List.foldl, step, startTest, addSkip, actEvent,
      mkExecInfo, flatInfos, List.map_append]
    exact List.Perm.trans (by simp) (List.perm_append_singleton _ _)

/-- Claim C3: for every run (any interleaving of successes, failures,
errors and skips, any configuration) and every completed-test count `k`,
the execution indices stored on the records of the first `k` completions
are exactly the set `{0, …, k-1}` with no gaps or duplicates — applied to
every prefix this means the index of the k-th completed test is `k`, i.e.
the indices are strictly increasing in completion order — the counter
equals the number of stop calls, and in mid-lifecycle (after the
outcome-specific record was appended, before the stop call) the new record
is already in its bucket with the index still at its initial 0 and the
counter not yet advanced: the index is assigned only at the stop call. -/
theorem C3_execution_indices (et pto : Bool) (execs : List TestExec)
    (k : Nat) (hk : k ≤ execs.length) :
    ((flatInfos (runExecs et pto (execs.take k))).map
        (fun t => t.test_index)).Perm (List.range k)
  ∧ (runExecs et pto (execs.take k)).test_index = k
  ∧ ∀ e : TestExec,
      ((flatInfos (midRun et pto (execs.take k) e)).map
          (fun t => t.test_index)).Perm (0 :: List.range k)
      ∧ (midRun et pto (execs.take k) e).test_index = k := by
  obtain ⟨hperm, hidx, hcb, hpto, het⟩ :=
    runEvents_traceOf (execs.take k) (initResult et pto) rfl
  have hlen : (execs.take k).length = k := by
    simp [List.length_take, Nat.min_eq_left hk]
  have hbase : ((flatInfos (runExecs et pto (execs.take k))).map
      (fun t => t.test_index)).Perm (List.range k) := by
    have h1 := hperm.map (fun t => t.test_index)
    rw [show flatInfos (initResult et pto) = [] from rfl] at h1
    rw [show (initResult et pto).per_test_output = pto from rfl,
        show (initResult et pto).test_index = 0 from rfl] at h1
    simp only [List.nil_append] at h1
    rw [expectedInfos_map_index, hlen, ← List.range_eq_range'] at h1
    exact h1
  have hidxk : (runExecs et pto (execs.take k)).test_index = k := by
    have h2 := hidx
    rw [show (initResult et pto).test_index = 0 from rfl, hlen] at h2
    simpa using h2
  refine ⟨hbase, hidxk, ?_⟩
  intro e
  obtain ⟨hmperm, hmidx⟩ :=
    runEvents_startAdd (runExecs et pto (execs.take k)) e
  refine ⟨?_, by rw [midRun, hmidx, hidxk]⟩
  have h3 := hmperm.map (fun t => t.test_index)
  simp only [List.map_cons, mkExecInfo_test_index] at h3
  exact h3.trans (hbase.cons 0)

/-- Witness for C3 at a concrete three-test run (a pass, a failure and a
skip) and completion count 2: the first two completed records carry exactly
the indices `{0, 1}` and the counter stands at 2. -/
theorem C3_witness :
    2 ≤ [execPass, execFail, execSkip].length ∧
    ((flatInfos (runExecs true false
        ([execPass, execFail, execSkip].take 2))).map
      (fun t => t.test_index)).Perm (List.range 2) ∧
    (runExecs true false ([execPass, execFail, execSkip].take 2)).test_index
      = 2 :=
  ⟨by decide,
    (C3_execution_indices true false [execPass, execFail, execSkip] 2
      (by decide)).1,
    (C3_execution_indices true false [execPass, execFail, execSkip] 2
      (by decide)).2.1⟩

/-- Folding one more pair into the grouping. -/
theorem groupFold_append_singleton (l : List (String × TestInfo))
    (p : String × TestInfo) :
    groupFold (l ++ [p]) = addToGroup (groupFold l) p.1 p.2 := by
  simp [groupFold, List.foldl_append]

/-- Inserting one more name into the first-seen key list. -/
theorem firstSeenKeys_append_singleton (xs : List String) (n : String) :
    firstSeenKeys (xs ++ [n]) =
      if (firstSeenKeys xs).any (fun m => m == n) then firstSeenKeys xs
      else firstSeenKeys xs ++ [n] := by
  simp [firstSeenKeys, List.foldl_append]

/-- Membership in the folded key list is membership in the accumulator or
the input. -/
theorem mem_firstSeenKeys_aux :
    ∀ (xs acc : List String) (n : String),
      (n ∈ xs.foldl
          (fun ks m => if ks.any (fun o => o == m) then ks else ks ++ [m])
          acc) ↔ n ∈ acc ∨ n ∈ xs := by
  intro xs
  induction xs with
  | nil => intro acc n; simp
  | cons x rest ih =>
    intro acc n
    simp only [List.foldl_cons]
    rw [ih]
    by_cases hx : acc.any (fun o => o == x) = true
    · have hxacc : x ∈ acc := by
        obtain ⟨o, ho, hoe⟩ := List.any_eq_true.mp hx
        exact (beq_iff_eq.mp hoe) ▸ ho
      simp only [hx, if_true, List.mem_cons]
      constructor
      · rintro (h | h)
        · exact Or.inl h
        · exact Or.inr (Or.inr h)
      · rintro (h | h | h)
        · exact Or.inl h
        · exact Or.inl (h ▸ hxacc)
        · exact Or.inr h
    · rw [if_neg hx]
      simp only [List.mem_append, List.mem_singleton, List.mem_cons]
      tauto

/-- The first-seen key list holds exactly the names of the input. -/
theorem mem_firstSeenKeys (xs : List String) (n : String) :
    n ∈ firstSeenKeys xs ↔ n ∈ xs := by
  rw [firstSeenKeys, mem_firstSeenKeys_aux]
  simp

/-- The `OrderedDict` fold computes the canonical grouped form: one entry
per first-seen key, holding the key's records in input order. -/
theorem groupFold_eq_canonical (l : List (String × TestInfo)) :
    groupFold l = (firstSeenKeys (l.map Prod.fst)).map (canonEntry l) := by
  induction l using List.reverseRecOn with
  | nil => rfl
  | append_singleton l p ih =>
    rw [groupFold_append_singleton, ih, List.map_append, List.map_cons,
      List.map_nil, firstSeenKeys_append_singleton]
    have hany : ((firstSeenKeys (l.map Prod.fst)).map (canonEntry l)).any
        (fun q => q.1 == p.1) =
        (firstSeenKeys (l.map Prod.fst)).any (fun m => m == p.1) := by
      rw [Bool.eq_iff_iff]
      simp only [List.any_eq_true, List.mem_map]
      constructor
      · rintro ⟨q, ⟨n, hn, rfl⟩, hq⟩
        exact ⟨n, hn, hq⟩
      · rintro ⟨n, hn, hq⟩
        exact ⟨canonEntry l n, ⟨n, hn, rfl⟩, hq⟩
    by_cases hk : (firstSeenKeys (l.map Prod.fst)).any (fun m => m == p.1)
      = true
    · rw [addToGroup, if_pos (hany.trans hk), if_pos hk, List.map_map]
      refine List.map_congr_left (fun n _ => ?_)
      simp only [Function.comp_apply, canonEntry]
      by_cases hn : n = p.1
      · subst hn
        simp [List.filter_append]
      · have h1 : (n == p.1) = false := by
          simpa using hn
        have h2 : (p.1 == n) = false := by
          simpa using fun h => hn h.symm
        simp [h1, h2, List.filter_append]
    · rw [addToGroup, if_neg ?hc, if_neg hk, List.map_append, List.map_cons,
        List.map_nil]
      case hc =>
        rw [hany]
        exact fun h => hk h
      have hpnot : p.1 ∉ l.map Prod.fst := by
        intro hmem
        exact hk (List.any_eq_true.mpr
          ⟨p.1, (mem_firstSeenKeys _ _).mpr hmem, by simp⟩)
      congr 1
      · refine List.map_congr_left (fun n hn => ?_)
        have hne : p.1 ≠ n := by
          intro h
          exact hpnot (h ▸ (mem_firstSeenKeys _ _).mp hn)
        have h2 : (p.1 == n) = false := by simpa using hne
        simp [canonEntry, List.filter_append, h2]
      · have hfil : l.filter (fun q => q.1 == p.1) = [] := by
          rw [List.filter_eq_nil_iff]
          intro a ha hba
          exact hpnot (List.mem_map.mpr ⟨a, ha, beq_iff_eq.mp hba⟩)
        simp [canonEntry, List.filter_append, hfil]

/-- Claim C5: the grouping step flattens all four outcome buckets into one
tagged list, sorts it by execution index ascending (the sort is a
permutation and the result is non-decreasing in the index), and folds it
into an insertion-ordered mapping: the mapping's keys are the suite names in
first-seen order over the sorted (execution-index) order, and each suite's
sequence is exactly the sorted list filtered to that suite — in particular,
with the run's indices pairwise distinct, strictly increasing in execution
index within every suite. -/
theorem C5_grouping_by_suite (s : XMLTestResult)
    (hU : ((flatInfos s).map (fun t => t.test_index)).Nodup) :
    (sortByIndex (taggedList s)).Perm (taggedList s)
  ∧ (sortByIndex (taggedList s)).Pairwise
      (fun a b => a.2.test_index ≤ b.2.test_index)
  ∧ (get_info_by_testcase s).map Prod.fst =
      firstSeenKeys ((sortByIndex (taggedList s)).map Prod.fst)
  ∧ ∀ p ∈ get_info_by_testcase s,
      p.2 = ((sortByIndex (taggedList s)).filter
          (fun q => q.1 == p.1)).map Prod.snd
      ∧ (p.2.map (fun t => t.test_index)).Pairwise (· < ·) := by
  haveI instTot : IsTotal (String × TestInfo)
      (fun a b => a.2.test_index ≤ b.2.test_index) :=
    ⟨fun a b => Nat.le_total a.2.test_index b.2.test_index⟩
  haveI instTrans : IsTrans (String × TestInfo)
      (fun a b => a.2.test_index ≤ b.2.test_index) :=
    ⟨fun a b c hab hbc => Nat.le_trans hab hbc⟩
  have hperm : (sortByIndex (taggedList s)).Perm (taggedList s) :=
    List.perm_insertionSort _ _
  have hsorted : (sortByIndex (taggedList s)).Pairwise
      (fun a b => a.2.test_index ≤ b.2.test_index) :=
    List.sorted_insertionSort _ _
  have hgroup : get_info_by_testcase s =
      (firstSeenKeys ((sortByIndex (taggedList s)).map Prod.fst)).map
        (canonEntry (sortByIndex (taggedList s))) :=
    groupFold_eq_canonical _
  have hNodupSorted : ((sortByIndex (taggedList s)).map
      (fun q => q.2.test_index)).Nodup := by
    refine ((hperm.map (fun q => q.2.test_index)).nodup_iff).mpr ?_
    have htl : (taggedList s).map
        (fun q : String × TestInfo => q.2.test_index)
        = (flatInfos s).map (fun t => t.test_index) := by
      simp [taggedList, List.map_map, Function.comp]
    rw [htl]
    exact hU
  refine ⟨hperm, hsorted, ?_, ?_⟩
  · rw [hgroup, List.map_map]
    have hcomp : (Prod.fst ∘ canonEntry (sortByIndex (taggedList s))) = id :=
      funext (fun n => rfl)
    rw [hcomp, List.map_id]
  · intro p hp
    rw [hgroup] at hp
    obtain ⟨n, hn, rfl⟩ := List.mem_map.mp hp
    refine ⟨rfl, ?_⟩
    have hpl : ((canonEntry (sortByIndex (taggedList s)) n).2.map
        (fun t => t.test_index)) =
        ((sortByIndex (taggedList s)).filter (fun q => q.1 == n)).map
          (fun q => q.2.test_index) := by
      simp [canonEntry, List.map_map, Function.comp]
    rw [hpl]
    have hLe : (((sortByIndex (taggedList s)).filter
        (fun q => q.1 == n)).map (fun q => q.2.test_index)).Pairwise
        (· ≤ ·) :=
      List.pairwise_map.mpr (hsorted.filter _)
    have hNe : (((sortByIndex (taggedList s)).filter
        (fun q => q.1 == n)).map (fun q => q.2.test_index)).Pairwise
        (· ≠ ·) :=
      hNodupSorted.sublist ((List.filter_sublist _).map _)
    exact (hLe.and hNe).imp (fun h => lt_of_le_of_ne h.1 h.2)

/-- Witness for C5 at the concrete three-test run (two suites, indices
0, 1, 2, pairwise distinct): the mapping's keys come out in first-seen
order over the sorted tagged list. -/
theorem C5_witness :
    ((flatInfos (runExecs true false [execPass, execFail, execSkip])).map
        (fun t => t.test_index)).Nodup ∧
    (get_info_by_testcase
        (runExecs true false [execPass, execFail, execSkip])).map Prod.fst =
      firstSeenKeys ((sortByIndex (taggedList
        (runExecs true false [execPass, execFail, execSkip]))).map
          Prod.fst) :=
  ⟨by decide, (C5_grouping_by_suite _ (by decide)).2.2.1⟩

/-- The grouping's keys are the suite names in first-seen order. -/
theorem groupFold_keys (l : List (String × TestInfo)) :
    (groupFold l).map Prod.fst = firstSeenKeys (l.map Prod.fst) := by
  rw [groupFold_eq_canonical, List.map_map]
  have hcomp : (Prod.fst ∘ canonEntry l) = id := funext (fun n => rfl)
  rw [hcomp, List.map_id]

/-- Insert-if-absent preserves distinctness of the key list. -/
theorem firstSeenKeys_nodup_aux :
    ∀ (xs acc : List String), acc.Nodup →
      (xs.foldl
        (fun ks m => if ks.any (fun o => o == m) then ks else ks ++ [m])
        acc).Nodup := by
  intro xs
  induction xs with
  | nil => intro acc h; exact h
  | cons x rest ih =>
    intro acc h
    simp only [List.foldl_cons]
    by_cases hx : acc.any (fun o => o == x) = true
    · rw [if_pos hx]
      exact ih acc h
    · rw [if_neg hx]
      refine ih _ ?_
      have hxn : x ∉ acc := by
        intro hmem
        exact hx (List.any_eq_true.mpr ⟨x, hmem, by simp⟩)
      exact List.Nodup.append h (List.nodup_singleton x)
        (List.disjoint_singleton.mpr hxn)

/-- The first-seen key list has no duplicates. -/
theorem firstSeenKeys_nodup (xs : List String) : (firstSeenKeys xs).Nodup :=
  firstSeenKeys_nodup_aux xs [] List.nodup_nil

/-- The directory-mode filename determines the suite name. -/
theorem dirFileName_inj (o sfx : String) {s1 s2 : String}
    (h : dirFileName o sfx s1 = dirFileName o sfx s2) : s1 = s2 := by
  rw [dirFileName, dirFileName] at h
  split at h <;>
  · refine String.ext ?_
    have hd := congrArg String.data h
    simp only [String.data_append, List.append_assoc] at hd
    have h1 := List.append_cancel_left hd
    have h2 := List.append_cancel_left h1
    have h3 := List.append_cancel_left h2
    exact List.append_cancel_right h3

/-- Claim C7: with a path target not ending in `.xml` (case-insensitively),
report generation emits the directory-creation call exactly when the
directory is absent, followed by exactly one standalone-document write per
suite named `TEST-<suite>-<suffix>.xml` inside that directory
(`TEST-<suite>.xml` for an empty suffix) — and nothing else; the write
names are pairwise distinct. -/
theorem C7_directory_mode (exists_fn : String → Bool)
    (abspath : String → String) (r : Runner) (s : XMLTestResult)
    (aggOut aggErr : String) (o : String)
    (ho : r.output = .path o)
    (hx : lowerEndsWithXml o = false) :
    generate_reports exists_fn abspath r s aggOut aggErr =
      (if exists_fn o then [] else [.makedirs o]) ++
      (get_info_by_testcase s).map (fun p =>
        .writeFile (dirFileName o r.outsuffix p.1)
          [add_xml_report s.per_test_output r.outsuffix aggOut aggErr
            p.1 p.2])
  ∧ (FsOp.makedirs o ∈ generate_reports exists_fn abspath r s aggOut aggErr
      ↔ exists_fn o = false)
  ∧ ((generate_reports exists_fn abspath r s aggOut aggErr).filterMap
        FsOp.writeName).Nodup := by
  have hops : generate_reports exists_fn abspath r s aggOut aggErr =
      (if exists_fn o then [] else [.makedirs o]) ++
      (get_info_by_testcase s).map (fun p =>
        .writeFile (dirFileName o r.outsuffix p.1)
          [add_xml_report s.per_test_output r.outsuffix aggOut aggErr
            p.1 p.2]) := by
    rw [generate_reports, ho]
    simp [hx, dirFileName]
  refine ⟨hops, ?_, ?_⟩
  · rw [hops]
    have hnw : FsOp.makedirs o ∉ (get_info_by_testcase s).map
        (fun p => FsOp.writeFile (dirFileName o r.outsuffix p.1)
          [add_xml_report s.per_test_output r.outsuffix aggOut aggErr
            p.1 p.2]) := by
      intro hmem
      obtain ⟨p, _, hpe⟩ := List.mem_map.mp hmem
      exact FsOp.noConfusion hpe
    cases hex : exists_fn o <;>
      simp [List.mem_append, hnw]
  · rw [hops, List.filterMap_append]
    have hdir : (if exists_fn o then ([] : List FsOp)
        else [.makedirs o]).filterMap FsOp.writeName = [] := by
      cases exists_fn o <;> simp [FsOp.writeName]
    rw [hdir, List.nil_append, List.filterMap_map]
    have hfm : (FsOp.writeName ∘ fun p : String × List TestInfo =>
        FsOp.writeFile (dirFileName o r.outsuffix p.1)
          [add_xml_report s.per_test_output r.outsuffix aggOut aggErr
            p.1 p.2]) =
        (some ∘ fun p : String × List TestInfo =>
          dirFileName o r.outsuffix p.1) := by
      funext p
      rfl
    rw [hfm, List.filterMap_eq_map]
    have hcompose : (fun p : String × List TestInfo =>
        dirFileName o r.outsuffix p.1) =
        (fun n => dirFileName o r.outsuffix n) ∘ Prod.fst := rfl
    rw [hcompose, ← List.map_map]
    refine List.Nodup.map (fun a b hab => dirFileName_inj o r.outsuffix hab)
      ?_
    rw [show (get_info_by_testcase s).map Prod.fst =
        firstSeenKeys ((sortByIndex (taggedList s)).map Prod.fst) from
        groupFold_keys _]
    exact firstSeenKeys_nodup _

/-- Witness for C7: a concrete three-test run written to directory `out`
with suffix `X` produces exactly the directory creation and one
`TEST-<suite>-X.xml` write per suite, with distinct names. -/
theorem C7_witness :
    (Runner.mk (.path "out") "X").output = .path "out" ∧
    lowerEndsWithXml "out" = false ∧
    generate_reports (fun _ => false) (fun p => p)
        (Runner.mk (.path "out") "X")
        (runExecs true false [execPass, execFail, execSkip]) "" "" =
      (if (fun (_ : String) => false) "out" then []
       else [.makedirs "out"]) ++
      (get_info_by_testcase
          (runExecs true false [execPass, execFail, execSkip])).map (fun p =>
        .writeFile (dirFileName "out" "X" p.1)
          [add_xml_report false "X" "" "" p.1 p.2]) :=
  ⟨rfl, by decide,
    (C7_directory_mode (fun _ => false) (fun p => p)
      (Runner.mk (.path "out") "X")
      (runExecs true false [execPass, execFail, execSkip]) "" "" "out"
      rfl (by decide)).1⟩

/-- Claim C8: with a path target ending in `.xml` (case-insensitively) and
a non-empty suffix, report generation ensures the parent directory of the
absolute target exists and performs exactly one write, of the file
`<base>-<suffix><ext>` (base/ext from splitting the absolute target's
extension), whose document root is a `testsuites` element enclosing one
`testsuite` element per suite in suite-first-seen order. -/
theorem C8_single_file_mode (exists_fn : String → Bool)
    (abspath : String → String) (r : Runner) (s : XMLTestResult)
    (aggOut aggErr : String) (o : String)
    (ho : r.output = .path o)
    (hx : lowerEndsWithXml o = true)
    (hs : r.outsuffix ≠ "") :
    generate_reports exists_fn abspath r s aggOut aggErr =
      (if exists_fn (splitPath (abspath o)).1 then []
       else [.makedirs (splitPath (abspath o)).1]) ++
      [.writeFile ((splitext (abspath o)).1 ++ "-" ++ r.outsuffix ++
          (splitext (abspath o)).2)
        [.elem "testsuites" []
          ((get_info_by_testcase s).map (fun p =>
            add_xml_report s.per_test_output r.outsuffix aggOut aggErr
              p.1 p.2))]]
  ∧ ((generate_reports exists_fn abspath r s aggOut aggErr).filter
        FsOp.isWrite).length = 1
  ∧ (get_info_by_testcase s).map Prod.fst =
      firstSeenKeys ((sortByIndex (taggedList s)).map Prod.fst) := by
  have hs' : (r.outsuffix != "") = true := by simpa using hs
  have hops : generate_reports exists_fn abspath r s aggOut aggErr =
      (if exists_fn (splitPath (abspath o)).1 then []
       else [.makedirs (splitPath (abspath o)).1]) ++
      [.writeFile ((splitext (abspath o)).1 ++ "-" ++ r.outsuffix ++
          (splitext (abspath o)).2)
        [.elem "testsuites" []
          ((get_info_by_testcase s).map (fun p =>
            add_xml_report s.per_test_output r.outsuffix aggOut aggErr
              p.1 p.2))]] := by
    rw [generate_reports, ho]
    simp [hx, hs']
  refine ⟨hops, ?_, groupFold_keys _⟩
  rw [hops, List.filter_append]
  have hdir : (if exists_fn (splitPath (abspath o)).1 then ([] : List FsOp)
      else [.makedirs (splitPath (abspath o)).1]).filter FsOp.isWrite
      = [] := by
    cases exists_fn (splitPath (abspath o)).1 <;> simp [FsOp.isWrite]
  rw [hdir, List.nil_append]
  rfl

/-- Witness for C8: the spec's own example — target `out/results.xml`,
suffix `X` — yields one write of `out/results-X.xml` holding the
`testsuites` root. -/
theorem C8_witness :
    (Runner.mk (.path "out/results.xml") "X").output =
      .path "out/results.xml" ∧
    lowerEndsWithXml "out/results.xml" = true ∧
    ("X" : String) ≠ "" ∧
    generate_reports (fun _ => true) (fun p => p)
        (Runner.mk (.path "out/results.xml") "X")
        (runExecs true false [execPass, execFail, execSkip]) "" "" =
      (if (fun (_ : String) => true) (splitPath "out/results.xml").1 then []
       else [.makedirs (splitPath "out/results.xml").1]) ++
      [.writeFile ((splitext "out/results.xml").1 ++ "-" ++ "X" ++
          (splitext "out/results.xml").2)
        [.elem "testsuites" []
          ((get_info_by_testcase
              (runExecs true false [execPass, execFail, execSkip])).map
            (fun p => add_xml_report false "X" "" "" p.1 p.2))]] :=
  ⟨rfl, by decide, by decide,
    (C8_single_file_mode (fun _ => true) (fun p => p)
      (Runner.mk (.path "out/results.xml") "X")
      (runExecs true false [execPass, execFail, execSkip]) "" ""
      "out/results.xml" rfl (by decide) (by decide)).1⟩

/-- Witness for the amended C6 at the concrete two-line-error record. -/
theorem C6_witness :
    (trC6.outcome = FAILURE ∨ trC6.outcome = ERROR) ∧
    trC6.err = some (.exc "AssertionError" "boom\nextra" "tb line") ∧
    ∃ rest, (report_testcase "m.S" trC6).childNodes =
      .elem (["failure", "error", "skipped"].getD (trC6.outcome - 1) "")
        [("type", "AssertionError"), ("message", xml_safe_str "boom\nextra")]
        [.cdata (xml_safe_str trC6.test_exception_info)] :: rest :=
  ⟨Or.inr (by decide), by decide,
    C6_diagnostic_type_message_trace "m.S" "AssertionError" "boom\nextra"
      "tb line" trC6 (Or.inr (by decide)) (by decide)⟩

end XmlRunner
